import Mathlib

/-!
Shallow embedding of `recursive_gentle.py` / `align.py` (recursive gap-repair
forced alignment) and proofs about it.

Modelling choices:
* Times are exact rationals (`ℚ`); the Python floats `0.1`, `0.01`, `10.0`
  become `1/10`, `1/100`, `10`.
* An audio reference is the chain of `(gap_start, gap_end)` windows extracted
  from the original file; the root audio is `[]`.
* All external effects (the Gentle aligner, `ffprobe` duration query, `ffmpeg`
  extraction, temp-transcript creation) are an oracle `Env`; each external
  interaction is additionally logged in an `Event` trace, mirroring the points
  where the Python code performs the call (and, for `streakWindow`, where it
  prints the streak's computed window).
* The Python `while` loop at lines 154-329 is not structurally terminating
  (both cursors can fail to advance), so the whole computation is fuel-indexed
  and returns `none` when fuel runs out.
-/

namespace RecursiveGentle

/-- A transcript word token: its original text plus its position in the full
transcript (the `original_global_index` assigned in `process_song_recursively`). -/
structure WordToken where
  text : String
  original_global_index : Nat
deriving DecidableEq

/-- One entry of the aligner's `words` output list. The field `stop` models the
aligner's `end` field (`end` is a Lean keyword). -/
structure GentleWord where
  word : String
  start : ℚ
  stop : ℚ
  case : String
deriving DecidableEq

/-- A record emitted by `recursive_gentle_align`; `stop` models the `end` key. -/
structure AlignmentRecord where
  word : String
  original_global_index : Nat
  start : Option ℚ
  stop : Option ℚ
  case : String
deriving DecidableEq

/-- Audio reference: the chain of `(gap_start, gap_end)` extraction windows
leading from the root audio file (which is `[]`) to this sub-clip. -/
abbrev Audio := List (ℚ × ℚ)

/-- The sub-clip `ffmpeg` cuts out of `audio` between `s` and `e`. -/
def subAudio (audio : Audio) (s e : ℚ) : Audio := audio ++ [(s, e)]

/-- Oracle for the external collaborators: the Gentle server's response for a
given (audio, transcript words) pair, the `ffprobe` duration (`none` = probe
failed), whether `ffmpeg` extraction succeeds, and whether the temp transcript
file can be created. -/
structure Env where
  align : Audio → List String → List GentleWord
  duration : Audio → Option ℚ
  extractOk : Audio → ℚ → ℚ → Bool
  tempOk : Audio → Bool

/-- The module-level constants `MIN_WORDS_FOR_RECURSION` and
`MAX_RECURSION_DEPTH` of `recursive_gentle.py`. -/
structure Config where
  minWords : Nat
  maxDepth : Nat

/-- The defaults in the source: `MIN_WORDS_FOR_RECURSION = 2`,
`MAX_RECURSION_DEPTH = 3`. -/
def defaultCfg : Config := ⟨2, 3⟩

/-- Trace of externally observable interactions, in program order.
`recursionEnter` marks each entry into `recursive_gentle_align` (the entry
print), `streakWindow` the printed streak window, the rest the external calls. -/
inductive Event where
  | recursionEnter (audio : Audio) (offset : ℚ) (depth : Nat)
  | tempCreate (audio : Audio)
  | alignerCall (audio : Audio) (words : List String)
  | durationProbe (audio : Audio)
  | streakWindow (idxs : List Nat) (gapStart gapEnd : ℚ)
  | extractionCall (audio : Audio) (gapStart gapEnd : ℚ) (idxs : List Nat)
deriving DecidableEq

/-- Result of one (sub-)run: the compiled record list plus the event trace. -/
structure RunOut where
  records : List AlignmentRecord
  events : List Event
deriving DecidableEq

/-- Concatenation of two run results. -/
def RunOut.app (a b : RunOut) : RunOut := ⟨a.records ++ b.records, a.events ++ b.events⟩

/-- Prepend a fixed prefix to an optional run result. -/
def seqOut (a : RunOut) : Option RunOut → Option RunOut
  | none => none
  | some b => some (a.app b)

/-- Concatenate two optional run results. -/
def obind2 : Option RunOut → Option RunOut → Option RunOut
  | some a, some b => some (a.app b)
  | _, _ => none

/-- Python `normalize_word`: `text.lower().rstrip(",.")` (lowercase, then strip
every trailing `,` or `.`). -/
def normalize_word (text : String) : String :=
  String.mk ((text.toLower.data.reverse.dropWhile fun c => c == ',' || c == '.').reverse)

/-- A failure record: original token text and index, null timestamps, given case. -/
def failRec (c : String) (t : WordToken) : AlignmentRecord :=
  ⟨t.text, t.original_global_index, none, none, c⟩

/-- A success record: original token text, aligner-local times plus the
segment's offset (lines 168-175). -/
def successRec (offset : ℚ) (t : WordToken) (g : GentleWord) : AlignmentRecord :=
  ⟨t.text, t.original_global_index, some (g.start + offset), some (g.stop + offset), "success"⟩

/-- The inner `while` at lines 186-193: collect consecutive tokens whose Gentle
word equals the transcript word after `.lower()` (note: `.lower()` only, not
`normalize_word`) with a non-success case. Returns the streak and the two
remaining suffixes. -/
def streakSplit : List WordToken → List GentleWord → List WordToken × List WordToken × List GentleWord
  | t :: ts, g :: gs =>
    if g.word.toLower = t.text.toLower ∧ g.case ≠ "success" then
      let r := streakSplit ts gs
      (t :: r.1, r.2.1, r.2.2)
    else ([], t :: ts, g :: gs)
  | ts, gs => ([], ts, gs)

/-- Lines 199-204: after the streak, is the cursor on a successfully aligned
word (compared, again, with `.lower()` only)?  If so, its local start time. -/
def nextSuccessStart? : List WordToken → List GentleWord → Option ℚ
  | t :: _, g :: _ =>
    if g.word.toLower = t.text.toLower ∧ g.case = "success" then some g.start else none
  | _, _ => none

/-- Model of `extract_audio_segment`: refuses degenerate windows
(`start >= end - 0.01`, line 44), otherwise defers to the `ffmpeg` oracle. -/
def extractSegmentOk (env : Env) (audio : Audio) (s e : ℚ) : Bool :=
  if e - 1/100 ≤ s then false else env.extractOk audio s e

/-- Line 207-210 and 286-287: probed segment duration, falling back to the last
successful end time plus `10.0` seconds when `ffprobe` fails. -/
def probedGapEnd (env : Env) (audio : Audio) (gapStart : ℚ) : ℚ :=
  match env.duration audio with
  | some d => d
  | none => gapStart + 10

/-- Lines 220-252 / 293-320: attempt the sub-clip extraction for a streak and,
if it succeeds, the recursive call (with offset increased by `gap_start`);
if extraction fails, emit one `ffmpegFailCase` record per streak token. -/
def attemptRecursion (env : Env) (audio : Audio) (offset : ℚ)
    (recurse : Audio → List WordToken → ℚ → Option RunOut)
    (streak : List WordToken) (gapStart gapEnd : ℚ) (ffmpegFailCase : String) :
    Option RunOut :=
  let ev := Event.extractionCall audio gapStart gapEnd (streak.map (·.original_global_index))
  if extractSegmentOk env audio gapStart gapEnd then
    match recurse (subAudio audio gapStart gapEnd) streak (offset + gapStart) with
    | none => none
    | some sub => some ⟨sub.records, ev :: sub.events⟩
  else
    some ⟨streak.map (failRec ffmpegFailCase), [ev]⟩

/-- Lines 217-262: the mid-segment streak decision. Note the predicate checks
only the streak length and the gap duration (`gap_end > gap_start + 0.1`);
the recursion depth is NOT consulted here. On predicate failure the reason is
`failed_invalid_gap_time` when the window is invalid, else
`failed_min_words_for_recursion`. -/
def midStreakCore (env : Env) (cfg : Config) (audio : Audio) (offset : ℚ)
    (recurse : Audio → List WordToken → ℚ → Option RunOut)
    (streak : List WordToken) (gapStart gapEnd : ℚ) : Option RunOut :=
  if cfg.minWords ≤ streak.length ∧ gapStart + 1/10 < gapEnd then
    attemptRecursion env audio offset recurse streak gapStart gapEnd "failed_ffmpeg_extraction"
  else
    some ⟨streak.map (failRec
      (if ¬ gapStart + 1/10 < gapEnd then "failed_invalid_gap_time"
       else "failed_min_words_for_recursion")), []⟩

/-- The segment walk (`while` loop, lines 154-329), in suffix form: the two
cursors become the remaining token / Gentle-output suffixes, `lastEnd` is
`last_successful_word_end_time_local`. Fuel-indexed because the loop body can
fail to advance either cursor. -/
def walk (env : Env) (cfg : Config) (audio : Audio) (offset : ℚ) (depth : Nat)
    (recurse : Audio → List WordToken → ℚ → Option RunOut) :
    Nat → List WordToken → List GentleWord → ℚ → Option RunOut
  | 0, _, _, _ => none
  | _ + 1, [], _, _ => some ⟨[], []⟩
  | _ + 1, t :: ts, [], lastEnd =>
    -- lines 280-327: Gentle output exhausted; trailing streak, then break.
    -- Here (and only here) the predicate also checks `depth < MAX_RECURSION_DEPTH`.
    let streak := t :: ts
    let gapEnd := probedGapEnd env audio lastEnd
    let evs : List Event :=
      [.durationProbe audio, .streakWindow (streak.map (·.original_global_index)) lastEnd gapEnd]
    if cfg.minWords ≤ streak.length ∧ depth < cfg.maxDepth ∧ lastEnd + 1/10 < gapEnd then
      seqOut ⟨[], evs⟩
        (attemptRecursion env audio offset recurse streak lastEnd gapEnd
          "failed_ffmpeg_extraction_trailing")
    else
      some ⟨streak.map (failRec "failed_trailing_streak_no_recursion"), evs⟩
  | fuel + 1, t :: ts, g :: gs, lastEnd =>
    if normalize_word g.word = normalize_word t.text then
      if g.case = "success" then
        seqOut ⟨[successRec offset t g], []⟩
          (walk env cfg audio offset depth recurse fuel ts gs g.stop)
      else
        let sp := streakSplit (t :: ts) (g :: gs)
        let gapRes : ℚ × List Event :=
          match nextSuccessStart? sp.2.1 sp.2.2 with
          | some s => (s, [])
          | none => (probedGapEnd env audio lastEnd, [Event.durationProbe audio])
        let evs := gapRes.2 ++
          [Event.streakWindow (sp.1.map (·.original_global_index)) lastEnd gapRes.1]
        seqOut ⟨[], evs⟩
          (obind2 (midStreakCore env cfg audio offset recurse sp.1 lastEnd gapRes.1)
            (walk env cfg audio offset depth recurse fuel sp.2.1 sp.2.2 lastEnd))
    else
      -- lines 265-278: desync; advance both cursors by exactly one.
      seqOut ⟨[failRec "error_transcript_gentle_desync" t], []⟩
        (walk env cfg audio offset depth recurse fuel ts gs lastEnd)

/-- Model of `recursive_gentle_align` (lines 87-329): entry checks in source order
(empty slice, depth budget, temp transcript, aligner output), then the walk. -/
def recursive_gentle_align (env : Env) (cfg : Config) :
    Nat → Audio → List WordToken → ℚ → Nat → Option RunOut
  | 0, _, _, _, _ => none
  | fuel + 1, audio, tokens, offset, depth =>
    let enter := Event.recursionEnter audio offset depth
    if tokens.isEmpty then some ⟨[], [enter]⟩
    else if cfg.maxDepth < depth then
      some ⟨tokens.map (failRec "failed_max_depth"), [enter]⟩
    else if env.tempOk audio = false then
      some ⟨tokens.map (failRec "failed_temp_transcript_creation"),
        [enter, .tempCreate audio]⟩
    else
      let gentle := env.align audio (tokens.map (·.text))
      let evs := [enter, Event.tempCreate audio, Event.alignerCall audio (tokens.map (·.text))]
      if gentle.isEmpty then
        some ⟨tokens.map (failRec "failed_gentle_core_call_no_output"), evs⟩
      else
        seqOut ⟨[], evs⟩
          (walk env cfg audio offset depth
            (fun a ts off => recursive_gentle_align env cfg fuel a ts off (depth + 1))
            (fuel + 1) tokens gentle 0)

/-- Helper for `tokenizeWords`: Python `str.split()` with no argument, i.e.
split on runs of whitespace discarding empty pieces; `acc` holds the current
word's characters in reverse. -/
def wordsAux : List Char → List Char → List String
  | [], acc => if acc.isEmpty then [] else [String.mk acc.reverse]
  | c :: cs, acc =>
    if c.isWhitespace then
      if acc.isEmpty then wordsAux cs [] else String.mk acc.reverse :: wordsAux cs []
    else wordsAux cs (c :: acc)

/-- Python `original_transcript_text.strip().split()`. -/
def tokenizeWords (s : String) : List String := wordsAux s.data []

/-- Model of `process_song_recursively` (lines 332-365): tokenize, run the depth-0
alignment on the root audio with offset `0.0`, then sort by
`original_global_index` (Python's stable `list.sort`). -/
def process_song_recursively (env : Env) (cfg : Config) (fuel : Nat)
    (transcript : String) : Option (List AlignmentRecord) :=
  let ws := tokenizeWords transcript
  if ws.isEmpty then some []
  else
    let tokens := ws.enum.map fun p => WordToken.mk p.2 p.1
    match recursive_gentle_align env cfg fuel [] tokens 0 0 with
    | none => none
    | some out =>
      some (out.records.mergeSort fun a b =>
        decide (a.original_global_index ≤ b.original_global_index))

/-- Every `case` string `recursive_gentle_align` can put in a record. -/
def codeCases : List String :=
  ["success", "failed_max_depth", "failed_temp_transcript_creation",
   "failed_gentle_core_call_no_output", "error_transcript_gentle_desync",
   "failed_min_words_for_recursion", "failed_invalid_gap_time",
   "failed_ffmpeg_extraction", "failed_ffmpeg_extraction_trailing",
   "failed_trailing_streak_no_recursion"]

/-- Modelled from the spec: the closed StatusKind enumeration of section 7 of
the specification, kept separate so the code's actually-emitted case set can be
compared against it. -/
def specStatusKinds : List String :=
  ["success", "failed_gentle_core_call", "aligner_unreachable", "aligner_rejected",
   "error_transcript_gentle_desync", "failed_min_words_for_recursion",
   "failed_invalid_gap_time", "failed_max_depth", "failed_ffmpeg_extraction",
   "failed_temp_transcript_creation"]

/-! ### Invariant definitions -/

/-- Record-list invariant relative to the token slice being processed: the
emitted indices are a permutation of the slice's indices (no token dropped or
duplicated), every case is one of the strings the code can emit, non-success
records carry null timestamps, and every record's word/index come from a token
of the slice. -/
def RecsOK (tokens : List WordToken) (rs : List AlignmentRecord) : Prop :=
  List.Perm (rs.map (·.original_global_index)) (tokens.map (·.original_global_index))
  ∧ (∀ r ∈ rs, r.case ∈ codeCases)
  ∧ (∀ r ∈ rs, r.case ≠ "success" → r.start = none ∧ r.stop = none)
  ∧ (∀ r ∈ rs, ∃ t ∈ tokens,
      t.original_global_index = r.original_global_index ∧ t.text = r.word)

/-- Event-trace invariant: every logged extraction is for a streak of at least
`MIN_WORDS_FOR_RECURSION` tokens whose window exceeds `MIN_GAP_DURATION`. -/
def EvOK (cfg : Config) (evs : List Event) : Prop :=
  ∀ a s e idxs, Event.extractionCall a s e idxs ∈ evs →
    cfg.minWords ≤ idxs.length ∧ s + 1/10 < e

/-- Full invariant for one (sub-)run over a token slice. -/
def SegOK (cfg : Config) (tokens : List WordToken) (out : RunOut) : Prop :=
  RecsOK tokens out.records ∧ EvOK cfg out.events

/-! ### Offset-shift definitions -/

/-- Shift a record's (optional) timestamps by `o`. -/
def shiftRecord (o : ℚ) (r : AlignmentRecord) : AlignmentRecord :=
  ⟨r.word, r.original_global_index, r.start.map (· + o), r.stop.map (· + o), r.case⟩

/-- Shift the offset recorded at a recursion entry by `o`; all other events
are offset-independent. -/
def shiftEvent (o : ℚ) : Event → Event
  | .recursionEnter a off d => .recursionEnter a (off + o) d
  | e => e

/-- Shift a whole run result by `o`. -/
def shiftRun (o : ℚ) (out : RunOut) : RunOut :=
  ⟨out.records.map (shiftRecord o), out.events.map (shiftEvent o)⟩

/-! ### Concrete environments, token lists and runs used in witnesses and
counterexamples -/

/-- A recursion callback that never returns (only used to instantiate `walk`
at a point where recursion is not reached). -/
def noRecurse : Audio → List WordToken → ℚ → Option RunOut := fun _ _ _ => none

/-- Aligner succeeds on every word of the three-word transcript. -/
def envAllSuccess : Env :=
  { align := fun a _ => if a = [] then
      [⟨"a", 1, 2, "success"⟩, ⟨"b", 3, 4, "success"⟩, ⟨"c", 5, 6, "success"⟩] else []
    duration := fun _ => some 30
    extractOk := fun _ _ _ => true
    tempOk := fun _ => true }

def toksABC : List WordToken := [⟨"a", 0⟩, ⟨"b", 1⟩, ⟨"c", 2⟩]

def outAllSuccess : RunOut :=
  ⟨[⟨"a", 0, some 1, some 2, "success"⟩, ⟨"b", 1, some 3, some 4, "success"⟩,
    ⟨"c", 2, some 5, some 6, "success"⟩],
   [.recursionEnter [] 0 0, .tempCreate [], .alignerCall [] ["a", "b", "c"]]⟩

/-- Aligner answers `"hello"` (unaligned) for the transcript token `"Hello,"`:
the words agree after `normalize_word` but differ after plain `.lower()`. -/
def envStuck : Env :=
  { align := fun a _ => if a = [] then [⟨"hello", 0, 1, "not-found-in-audio"⟩] else []
    duration := fun _ => some 30
    extractOk := fun _ _ _ => true
    tempOk := fun _ => true }

/-- One success followed by a two-token unaligned streak; the sub-clip aligner
returns nothing. -/
def envDepth3 : Env :=
  { align := fun a _ => if a = [] then
      [⟨"ok", 1, 2, "success"⟩, ⟨"x", 0, 0, "not-found-in-audio"⟩,
       ⟨"y", 0, 0, "not-found-in-audio"⟩] else []
    duration := fun a => if a = [] then some 30 else none
    extractOk := fun _ _ _ => true
    tempOk := fun _ => true }

def toksDepth3 : List WordToken := [⟨"ok", 0⟩, ⟨"x", 1⟩, ⟨"y", 2⟩]

/-- Run of `envDepth3` entered at depth `3 = MAX_RECURSION_DEPTH`. -/
def outDepth3 : RunOut :=
  ⟨[⟨"ok", 0, some 1, some 2, "success"⟩, failRec "failed_max_depth" ⟨"x", 1⟩,
    failRec "failed_max_depth" ⟨"y", 2⟩],
   [.recursionEnter [] 0 3, .tempCreate [], .alignerCall [] ["ok", "x", "y"],
    .durationProbe [], .streakWindow [1, 2] 2 30, .extractionCall [] 2 30 [1, 2],
    .recursionEnter [(2, 30)] 2 4]⟩

/-- Run of `envDepth3` entered at depth `0`. -/
def outDepth0 : RunOut :=
  ⟨[⟨"ok", 0, some 1, some 2, "success"⟩,
    failRec "failed_gentle_core_call_no_output" ⟨"x", 1⟩,
    failRec "failed_gentle_core_call_no_output" ⟨"y", 2⟩],
   [.recursionEnter [] 0 0, .tempCreate [], .alignerCall [] ["ok", "x", "y"],
    .durationProbe [], .streakWindow [1, 2] 2 30, .extractionCall [] 2 30 [1, 2],
    .recursionEnter [(2, 30)] 2 1, .tempCreate [(2, 30)],
    .alignerCall [(2, 30)] ["x", "y"]]⟩

/-- A one-token streak followed by a success that matches the next transcript
token `"b."` only after punctuation stripping; probed duration `0.05`. -/
def envGapSmall : Env :=
  { align := fun a _ => if a = [] then
      [⟨"a", 0, 1, "not-found-in-audio"⟩, ⟨"b", 5, 6, "success"⟩] else []
    duration := fun _ => some (1/20)
    extractOk := fun _ _ _ => true
    tempOk := fun _ => true }

/-- Same aligner output, probed duration `8`. -/
def envGapDur8 : Env :=
  { align := fun a _ => if a = [] then
      [⟨"a", 0, 1, "not-found-in-audio"⟩, ⟨"b", 5, 6, "success"⟩] else []
    duration := fun _ => some 8
    extractOk := fun _ _ _ => true
    tempOk := fun _ => true }

/-- Same aligner output, duration probe fails. -/
def envGapNoProbe : Env :=
  { align := fun a _ => if a = [] then
      [⟨"a", 0, 1, "not-found-in-audio"⟩, ⟨"b", 5, 6, "success"⟩] else []
    duration := fun _ => none
    extractOk := fun _ _ _ => true
    tempOk := fun _ => true }

def toksGapPunct : List WordToken := [⟨"a", 0⟩, ⟨"b.", 1⟩]

/-- Transcript whose second token matches the aligner's success exactly. -/
def toksGapExact : List WordToken := [⟨"a", 0⟩, ⟨"b", 1⟩]

def outGapSmall : RunOut :=
  ⟨[failRec "failed_invalid_gap_time" ⟨"a", 0⟩, ⟨"b.", 1, some 5, some 6, "success"⟩],
   [.recursionEnter [] 0 0, .tempCreate [], .alignerCall [] ["a", "b."],
    .durationProbe [], .streakWindow [0] 0 (1/20)]⟩

def outGapDur8 : RunOut :=
  ⟨[failRec "failed_min_words_for_recursion" ⟨"a", 0⟩, ⟨"b.", 1, some 5, some 6, "success"⟩],
   [.recursionEnter [] 0 0, .tempCreate [], .alignerCall [] ["a", "b."],
    .durationProbe [], .streakWindow [0] 0 8]⟩

def outGapExact : RunOut :=
  ⟨[failRec "failed_min_words_for_recursion" ⟨"a", 0⟩, ⟨"b", 1, some 5, some 6, "success"⟩],
   [.recursionEnter [] 0 0, .tempCreate [], .alignerCall [] ["a", "b"],
    .streakWindow [0] 0 5]⟩

def outGapNoProbe : RunOut :=
  ⟨[failRec "failed_min_words_for_recursion" ⟨"a", 0⟩, ⟨"b.", 1, some 5, some 6, "success"⟩],
   [.recursionEnter [] 0 0, .tempCreate [], .alignerCall [] ["a", "b."],
    .durationProbe [], .streakWindow [0] 0 10]⟩

/-- One success, then the Gentle output ends with one transcript token left. -/
def envTrailing : Env :=
  { align := fun a _ => if a = [] then [⟨"a", 1, 2, "success"⟩] else []
    duration := fun _ => some 30
    extractOk := fun _ _ _ => true
    tempOk := fun _ => true }

def toksTrailing : List WordToken := [⟨"a", 0⟩, ⟨"b", 1⟩]

def outTrailing : RunOut :=
  ⟨[⟨"a", 0, some 1, some 2, "success"⟩,
    failRec "failed_trailing_streak_no_recursion" ⟨"b", 1⟩],
   [.recursionEnter [] 0 0, .tempCreate [], .alignerCall [] ["a", "b"],
    .durationProbe [], .streakWindow [1] 2 30]⟩

/-- Two nested recursions: the depth-0 streak window starts at `10.0`, the
depth-1 streak window at `3.5`, and the depth-2 aligner reports `"y"` at local
start `1.2`; its absolute start must be `10.0 + 3.5 + 1.2 = 14.7`. -/
def envNested : Env :=
  { align := fun a _ =>
      if a = [] then
        [⟨"w0", 9, 10, "success"⟩, ⟨"x", 0, 0, "nfia"⟩, ⟨"y", 0, 0, "nfia"⟩,
         ⟨"z", 0, 0, "nfia"⟩]
      else if a = [(10, 30)] then
        [⟨"x", 3, 7/2, "success"⟩, ⟨"y", 0, 0, "nfia"⟩, ⟨"z", 0, 0, "nfia"⟩]
      else if a = [(10, 30), (7/2, 20)] then
        [⟨"y", 6/5, 3/2, "success"⟩, ⟨"z", 2, 5/2, "success"⟩]
      else []
    duration := fun a => if a = [] then some 30 else if a = [(10, 30)] then some 20 else none
    extractOk := fun _ _ _ => true
    tempOk := fun _ => true }

def toksNested : List WordToken := [⟨"w0", 0⟩, ⟨"x", 1⟩, ⟨"y", 2⟩, ⟨"z", 3⟩]

/-! ### Basic lemmas about the plumbing -/

theorem seqOut_eq_some {a : RunOut} {b : Option RunOut} {c : RunOut} :
    seqOut a b = some c ↔ ∃ y, b = some y ∧ c = a.app y := by
  cases b <;> simp [seqOut, eq_comm]

theorem obind2_eq_some {x y : Option RunOut} {z : RunOut} :
    obind2 x y = some z ↔ ∃ a b, x = some a ∧ y = some b ∧ z = a.app b := by
  cases x <;> cases y <;> simp [obind2, eq_comm]

@[simp] theorem RunOut.app_records (a b : RunOut) :
    (a.app b).records = a.records ++ b.records := rfl

@[simp] theorem RunOut.app_events (a b : RunOut) :
    (a.app b).events = a.events ++ b.events := rfl

/-- The streak plus the remaining tokens are exactly the tokens we started
from: the inner `while` only splits the token suffix, it drops nothing. -/
theorem streakSplit_append : ∀ (ts : List WordToken) (gs : List GentleWord),
    (streakSplit ts gs).1 ++ (streakSplit ts gs).2.1 = ts
  | [], gs => by simp [streakSplit]
  | t :: ts, [] => by simp [streakSplit]
  | t :: ts, g :: gs => by
    by_cases h : g.word.toLower = t.text.toLower ∧ g.case ≠ "success"
    · simp [streakSplit, h, streakSplit_append ts gs]
    · simp [streakSplit, h]

/-! ### The per-segment invariant -/

theorem RecsOK_nil : RecsOK [] [] := by
  refine ⟨by simp, ?_, ?_, ?_⟩ <;> simp

theorem RecsOK_append {ts₁ ts₂ : List WordToken} {rs₁ rs₂ : List AlignmentRecord}
    (h₁ : RecsOK ts₁ rs₁) (h₂ : RecsOK ts₂ rs₂) : RecsOK (ts₁ ++ ts₂) (rs₁ ++ rs₂) := by
  obtain ⟨p₁, c₁, n₁, w₁⟩ := h₁
  obtain ⟨p₂, c₂, n₂, w₂⟩ := h₂
  refine ⟨?_, ?_, ?_, ?_⟩
  · simpa using p₁.append p₂
  · intro r hr
    rcases List.mem_append.1 hr with h | h
    · exact c₁ r h
    · exact c₂ r h
  · intro r hr
    rcases List.mem_append.1 hr with h | h
    · exact n₁ r h
    · exact n₂ r h
  · intro r hr
    rcases List.mem_append.1 hr with h | h
    · obtain ⟨t, ht, h'⟩ := w₁ r h
      exact ⟨t, List.mem_append.2 (Or.inl ht), h'⟩
    · obtain ⟨t, ht, h'⟩ := w₂ r h
      exact ⟨t, List.mem_append.2 (Or.inr ht), h'⟩

/-- A uniform failure emission (`for wo in ...: append failure record`)
satisfies the record invariant. -/
theorem RecsOK_failMap {c : String} (hc : c ∈ codeCases)
    (tokens : List WordToken) : RecsOK tokens (tokens.map (failRec c)) := by
  refine ⟨?_, ?_, ?_, ?_⟩
  · have h : ((fun r : AlignmentRecord => r.original_global_index) ∘ failRec c)
        = fun t : WordToken => t.original_global_index := rfl
    simp [List.map_map, h]
  · intro r hr
    obtain ⟨t, _, rfl⟩ := List.mem_map.1 hr
    exact hc
  · intro r hr _
    obtain ⟨t, _, rfl⟩ := List.mem_map.1 hr
    exact ⟨rfl, rfl⟩
  · intro r hr
    obtain ⟨t, ht, rfl⟩ := List.mem_map.1 hr
    exact ⟨t, ht, rfl, rfl⟩

theorem RecsOK_success {offset : ℚ} {t : WordToken} {g : GentleWord} :
    RecsOK [t] [successRec offset t g] := by
  refine ⟨by simp [successRec], ?_, ?_, ?_⟩
  · intro r hr
    simp at hr
    subst hr
    simp [successRec, codeCases]
  · intro r hr hne
    simp at hr
    subst hr
    simp [successRec] at hne
  · intro r hr
    simp at hr
    subst hr
    exact ⟨t, by simp, rfl, rfl⟩

theorem EvOK_nil {cfg : Config} : EvOK cfg [] := by
  intro a s e idxs h
  simp at h

theorem EvOK_append {cfg : Config} {evs₁ evs₂ : List Event} :
    EvOK cfg (evs₁ ++ evs₂) ↔ EvOK cfg evs₁ ∧ EvOK cfg evs₂ := by
  constructor
  · intro h
    exact ⟨fun a s e i hm => h a s e i (List.mem_append.2 (Or.inl hm)),
           fun a s e i hm => h a s e i (List.mem_append.2 (Or.inr hm))⟩
  · rintro ⟨h₁, h₂⟩ a s e i hm
    rcases List.mem_append.1 hm with hm | hm
    · exact h₁ a s e i hm
    · exact h₂ a s e i hm

theorem EvOK_cons {cfg : Config} {ev : Event} {evs : List Event}
    (h₁ : ∀ a s e idxs, ev = Event.extractionCall a s e idxs →
      cfg.minWords ≤ idxs.length ∧ s + 1/10 < e)
    (h₂ : EvOK cfg evs) : EvOK cfg (ev :: evs) := by
  intro a s e i hm
  rcases List.mem_cons.1 hm with hm | hm
  · exact h₁ a s e i hm.symm
  · exact h₂ a s e i hm

theorem SegOK_app {cfg : Config} {ts₁ ts₂ : List WordToken} {o₁ o₂ : RunOut}
    (h₁ : SegOK cfg ts₁ o₁) (h₂ : SegOK cfg ts₂ o₂) :
    SegOK cfg (ts₁ ++ ts₂) (o₁.app o₂) :=
  ⟨RecsOK_append h₁.1 h₂.1, by
    rw [RunOut.app_events, EvOK_append]
    exact ⟨h₁.2, h₂.2⟩⟩

/-- Lemma that `attemptRecursion` preserves the invariant provided the streak satisfies
the two checked conditions and the recursive callee preserves it. -/
theorem attemptRecursion_segOK {env : Env} {cfg : Config} {audio : Audio} {offset : ℚ}
    {recurse : Audio → List WordToken → ℚ → Option RunOut}
    {streak : List WordToken} {gapStart gapEnd : ℚ} {c : String} {o : RunOut}
    (hrec : ∀ a ts off r, recurse a ts off = some r → SegOK cfg ts r)
    (hc : c ∈ codeCases)
    (hlen : cfg.minWords ≤ streak.length) (hgap : gapStart + 1/10 < gapEnd)
    (h : attemptRecursion env audio offset recurse streak gapStart gapEnd c = some o) :
    SegOK cfg streak o := by
  unfold attemptRecursion at h
  by_cases hex : extractSegmentOk env audio gapStart gapEnd = true
  · rw [if_pos hex] at h
    cases hr : recurse (subAudio audio gapStart gapEnd) streak (offset + gapStart) with
    | none => rw [hr] at h; simp at h
    | some sub =>
      rw [hr] at h
      simp only [Option.some.injEq] at h
      subst h
      obtain ⟨hrecs, hevs⟩ := hrec _ _ _ _ hr
      refine ⟨hrecs, EvOK_cons ?_ hevs⟩
      rintro a s e idxs ⟨rfl, rfl, rfl, rfl⟩
      exact ⟨by simpa using hlen, hgap⟩
  · rw [if_neg hex] at h
    simp only [Option.some.injEq] at h
    subst h
    refine ⟨RecsOK_failMap hc streak, EvOK_cons ?_ EvOK_nil⟩
    rintro a s e idxs ⟨rfl, rfl, rfl, rfl⟩
    exact ⟨by simpa using hlen, hgap⟩

/-- The mid-segment streak handler preserves the invariant. -/
theorem midStreakCore_segOK {env : Env} {cfg : Config} {audio : Audio} {offset : ℚ}
    {recurse : Audio → List WordToken → ℚ → Option RunOut}
    {streak : List WordToken} {gapStart gapEnd : ℚ} {o : RunOut}
    (hrec : ∀ a ts off r, recurse a ts off = some r → SegOK cfg ts r)
    (h : midStreakCore env cfg audio offset recurse streak gapStart gapEnd = some o) :
    SegOK cfg streak o := by
  unfold midStreakCore at h
  by_cases hcond : cfg.minWords ≤ streak.length ∧ gapStart + 1/10 < gapEnd
  · rw [if_pos hcond] at h
    exact attemptRecursion_segOK hrec (by simp [codeCases]) hcond.1 hcond.2 h
  · rw [if_neg hcond] at h
    simp only [Option.some.injEq] at h
    subst h
    refine ⟨RecsOK_failMap ?_ streak, EvOK_nil⟩
    by_cases hg : gapStart + 1/10 < gapEnd
    · rw [if_neg (not_not_intro hg)]
      decide
    · rw [if_pos hg]
      decide

theorem EvOK_nonextraction {cfg : Config} {ev : Event} {evs : List Event}
    (h₁ : ∀ a s e idxs, ev ≠ Event.extractionCall a s e idxs)
    (h₂ : EvOK cfg evs) : EvOK cfg (ev :: evs) :=
  EvOK_cons (fun a s e idxs hh => absurd hh (h₁ a s e idxs)) h₂

/-- Common shape of the mid-segment streak step: a (non-extraction) event
prefix, the streak handler, then the rest of the walk. -/
theorem streak_step_segOK {env : Env} {cfg : Config} {audio : Audio} {offset : ℚ}
    {recurse : Audio → List WordToken → ℚ → Option RunOut}
    {evs : List Event} {sp1 ts2 ts : List WordToken} {gapStart gapEnd : ℚ}
    {w : Option RunOut} {out : RunOut}
    (hrec : ∀ a ts' off r, recurse a ts' off = some r → SegOK cfg ts' r)
    (hevs : EvOK cfg evs)
    (hw : ∀ r, w = some r → SegOK cfg ts2 r)
    (happ : sp1 ++ ts2 = ts)
    (h : seqOut ⟨[], evs⟩
      (obind2 (midStreakCore env cfg audio offset recurse sp1 gapStart gapEnd) w)
      = some out) :
    SegOK cfg ts out := by
  obtain ⟨y, hy, rfl⟩ := seqOut_eq_some.1 h
  obtain ⟨o₁, o₂, ho₁, ho₂, rfl⟩ := obind2_eq_some.1 hy
  have h₁ : SegOK cfg sp1 o₁ := midStreakCore_segOK hrec ho₁
  have h₂ : SegOK cfg ts2 o₂ := hw _ ho₂
  have h₀ : SegOK cfg ([] : List WordToken) ⟨[], evs⟩ := ⟨RecsOK_nil, hevs⟩
  have := SegOK_app h₀ (SegOK_app h₁ h₂)
  rw [List.nil_append, happ] at this
  exact this

/-- Main invariant of the segment walk: whenever the walk terminates, its
output satisfies `SegOK` for the token suffix it was run on. -/
theorem walk_segOK {env : Env} {cfg : Config} {audio : Audio} {offset : ℚ} {depth : Nat}
    {recurse : Audio → List WordToken → ℚ → Option RunOut}
    (hrec : ∀ a ts off r, recurse a ts off = some r → SegOK cfg ts r) :
    ∀ fuel ts gs lastEnd out,
      walk env cfg audio offset depth recurse fuel ts gs lastEnd = some out →
      SegOK cfg ts out := by
  intro fuel
  induction fuel with
  | zero =>
    intro ts gs lE out h
    simp [walk] at h
  | succ f ih =>
    intro ts gs lE out h
    cases ts with
    | nil =>
      simp only [walk, Option.some.injEq] at h
      subst h
      exact ⟨RecsOK_nil, EvOK_nil⟩
    | cons t ts =>
      cases gs with
      | nil =>
        simp only [walk] at h
        by_cases hcond : cfg.minWords ≤ (t :: ts).length ∧ depth < cfg.maxDepth ∧
            lE + 1/10 < probedGapEnd env audio lE
        · rw [if_pos hcond] at h
          obtain ⟨y, hy, rfl⟩ := seqOut_eq_some.1 h
          have hstreak : SegOK cfg (t :: ts) y :=
            attemptRecursion_segOK hrec (by decide) hcond.1 hcond.2.2 hy
          have h₀ : SegOK cfg ([] : List WordToken)
              ⟨[], [Event.durationProbe audio,
                Event.streakWindow ((t :: ts).map (·.original_global_index)) lE
                  (probedGapEnd env audio lE)]⟩ := by
            refine ⟨RecsOK_nil, ?_⟩
            refine EvOK_nonextraction ?_ (EvOK_nonextraction ?_ EvOK_nil) <;>
              intro a s e idxs hh <;> cases hh
          simpa using SegOK_app h₀ hstreak
        · rw [if_neg hcond] at h
          simp only [Option.some.injEq] at h
          subst h
          refine ⟨RecsOK_failMap (by decide) _, ?_⟩
          refine EvOK_nonextraction ?_ (EvOK_nonextraction ?_ EvOK_nil) <;>
            intro a s e idxs hh <;> cases hh
      | cons g gs =>
        simp only [walk] at h
        by_cases hn : normalize_word g.word = normalize_word t.text
        · rw [if_pos hn] at h
          by_cases hs : g.case = "success"
          · rw [if_pos hs] at h
            obtain ⟨y, hy, rfl⟩ := seqOut_eq_some.1 h
            have h₂ : SegOK cfg ts y := ih ts gs g.stop y hy
            have h₁ : SegOK cfg [t] ⟨[successRec offset t g], []⟩ :=
              ⟨RecsOK_success, EvOK_nil⟩
            simpa using SegOK_app h₁ h₂
          · rw [if_neg hs] at h
            rcases hq : nextSuccessStart? (streakSplit (t :: ts) (g :: gs)).2.1
                (streakSplit (t :: ts) (g :: gs)).2.2 with _ | s <;>
              simp only [hq] at h
            · refine streak_step_segOK hrec ?_ (fun r hr => ih _ _ _ r hr)
                (streakSplit_append (t :: ts) (g :: gs)) h
              refine EvOK_nonextraction ?_ (EvOK_nonextraction ?_ EvOK_nil) <;>
                intro a s e idxs hh <;> cases hh
            · refine streak_step_segOK hrec ?_ (fun r hr => ih _ _ _ r hr)
                (streakSplit_append (t :: ts) (g :: gs)) h
              refine EvOK_nonextraction ?_ EvOK_nil
              intro a s e idxs hh
              cases hh
        · rw [if_neg hn] at h
          obtain ⟨y, hy, rfl⟩ := seqOut_eq_some.1 h
          have h₂ : SegOK cfg ts y := ih ts gs lE y hy
          have h₁ : SegOK cfg [t] ⟨[failRec "error_transcript_gentle_desync" t], []⟩ :=
            ⟨RecsOK_failMap (by decide) [t], EvOK_nil⟩
          simpa using SegOK_app h₁ h₂

/-- Main invariant of `recursive_gentle_align`: whenever it terminates, its
output satisfies `SegOK` for the token slice it was called on. -/
theorem recursive_gentle_align_segOK {env : Env} {cfg : Config} :
    ∀ fuel audio tokens offset depth out,
      recursive_gentle_align env cfg fuel audio tokens offset depth = some out →
      SegOK cfg tokens out := by
  intro fuel
  induction fuel with
  | zero =>
    intro audio tokens offset depth out h
    simp [recursive_gentle_align] at h
  | succ f ih =>
    intro audio tokens offset depth out h
    simp only [recursive_gentle_align] at h
    by_cases he : tokens.isEmpty
    · rw [if_pos he] at h
      simp only [Option.some.injEq] at h
      subst h
      rw [List.isEmpty_iff] at he
      subst he
      exact ⟨RecsOK_nil, EvOK_nonextraction (by intro a s e idxs hh; cases hh) EvOK_nil⟩
    · rw [if_neg he] at h
      by_cases hd : cfg.maxDepth < depth
      · rw [if_pos hd] at h
        simp only [Option.some.injEq] at h
        subst h
        exact ⟨RecsOK_failMap (by decide) _,
          EvOK_nonextraction (by intro a s e idxs hh; cases hh) EvOK_nil⟩
      · rw [if_neg hd] at h
        by_cases ht : env.tempOk audio = false
        · rw [if_pos ht] at h
          simp only [Option.some.injEq] at h
          subst h
          refine ⟨RecsOK_failMap (by decide) _, ?_⟩
          refine EvOK_nonextraction ?_ (EvOK_nonextraction ?_ EvOK_nil) <;>
            intro a s e idxs hh <;> cases hh
        · rw [if_neg ht] at h
          by_cases hg : (env.align audio (tokens.map (·.text))).isEmpty
          · rw [if_pos hg] at h
            simp only [Option.some.injEq] at h
            subst h
            refine ⟨RecsOK_failMap (by decide) _, ?_⟩
            refine EvOK_nonextraction ?_
              (EvOK_nonextraction ?_ (EvOK_nonextraction ?_ EvOK_nil)) <;>
              intro a s e idxs hh <;> cases hh
          · rw [if_neg hg] at h
            obtain ⟨y, hy, rfl⟩ := seqOut_eq_some.1 h
            have hw : SegOK cfg tokens y := by
              refine walk_segOK ?_ (f + 1) tokens
                (env.align audio (tokens.map (·.text))) 0 y hy
              intro a ts off r hr
              exact ih a ts off (depth + 1) r hr
            have h₀ : SegOK cfg ([] : List WordToken)
                ⟨[], [Event.recursionEnter audio offset depth,
                  Event.tempCreate audio,
                  Event.alignerCall audio (tokens.map (·.text))]⟩ := by
              refine ⟨RecsOK_nil, ?_⟩
              refine EvOK_nonextraction ?_
                (EvOK_nonextraction ?_ (EvOK_nonextraction ?_ EvOK_nil)) <;>
                intro a s e idxs hh <;> cases hh
            simpa using SegOK_app h₀ hw

/-! ### Offset composition: translating the segment offset translates exactly
the success timestamps (and the offsets recorded at recursion entries), i.e.
offsets are accumulated additively and never renormalized. -/

@[simp] theorem shiftRecord_failRec (o : ℚ) (c : String) (t : WordToken) :
    shiftRecord o (failRec c t) = failRec c t := rfl

theorem shiftRecord_successRec (o₁ o₂ : ℚ) (t : WordToken) (g : GentleWord) :
    shiftRecord o₁ (successRec o₂ t g) = successRec (o₂ + o₁) t g := by
  simp [shiftRecord, successRec, add_assoc]

theorem shiftRun_app (o : ℚ) (a b : RunOut) :
    shiftRun o (a.app b) = (shiftRun o a).app (shiftRun o b) := by
  simp [shiftRun, RunOut.app]

theorem seqOut_shift (o : ℚ) (a : RunOut) (b : Option RunOut) :
    Option.map (shiftRun o) (seqOut a b)
      = seqOut (shiftRun o a) (Option.map (shiftRun o) b) := by
  cases b <;> simp [seqOut, shiftRun_app]

theorem obind2_shift (o : ℚ) (x y : Option RunOut) :
    Option.map (shiftRun o) (obind2 x y)
      = obind2 (Option.map (shiftRun o) x) (Option.map (shiftRun o) y) := by
  cases x <;> cases y <;> simp [obind2, shiftRun_app]

theorem attemptRecursion_shift {env : Env} {audio : Audio} (o₁ o₂ : ℚ)
    {recurse₁ recurse₂ : Audio → List WordToken → ℚ → Option RunOut}
    (hR : ∀ a ts off, recurse₁ a ts (o₁ + off) = Option.map (shiftRun o₁) (recurse₂ a ts off))
    (streak : List WordToken) (gapStart gapEnd : ℚ) (c : String) :
    attemptRecursion env audio (o₁ + o₂) recurse₁ streak gapStart gapEnd c
      = Option.map (shiftRun o₁)
          (attemptRecursion env audio o₂ recurse₂ streak gapStart gapEnd c) := by
  unfold attemptRecursion
  by_cases hex : extractSegmentOk env audio gapStart gapEnd = true
  · rw [if_pos hex, if_pos hex, add_assoc, hR]
    cases recurse₂ (subAudio audio gapStart gapEnd) streak (o₂ + gapStart) with
    | none => simp
    | some sub => simp [shiftRun, shiftEvent]
  · rw [if_neg hex, if_neg hex]
    simp [shiftRun, shiftEvent, List.map_map, Function.comp]

theorem midStreakCore_shift {env : Env} {cfg : Config} {audio : Audio} (o₁ o₂ : ℚ)
    {recurse₁ recurse₂ : Audio → List WordToken → ℚ → Option RunOut}
    (hR : ∀ a ts off, recurse₁ a ts (o₁ + off) = Option.map (shiftRun o₁) (recurse₂ a ts off))
    (streak : List WordToken) (gapStart gapEnd : ℚ) :
    midStreakCore env cfg audio (o₁ + o₂) recurse₁ streak gapStart gapEnd
      = Option.map (shiftRun o₁)
          (midStreakCore env cfg audio o₂ recurse₂ streak gapStart gapEnd) := by
  unfold midStreakCore
  by_cases hcond : cfg.minWords ≤ streak.length ∧ gapStart + 1/10 < gapEnd
  · rw [if_pos hcond, if_pos hcond]
    exact attemptRecursion_shift o₁ o₂ hR streak gapStart gapEnd _
  · rw [if_neg hcond, if_neg hcond]
    simp [shiftRun, List.map_map, Function.comp]

theorem walk_shift {env : Env} {cfg : Config} {audio : Audio} {depth : Nat}
    {recurse₁ recurse₂ : Audio → List WordToken → ℚ → Option RunOut} (o₁ o₂ : ℚ)
    (hR : ∀ a ts off, recurse₁ a ts (o₁ + off) = Option.map (shiftRun o₁) (recurse₂ a ts off)) :
    ∀ fuel ts gs lE,
      walk env cfg audio (o₁ + o₂) depth recurse₁ fuel ts gs lE
        = Option.map (shiftRun o₁) (walk env cfg audio o₂ depth recurse₂ fuel ts gs lE) := by
  intro fuel
  induction fuel with
  | zero =>
    intro ts gs lE
    simp [walk]
  | succ f ih =>
    intro ts gs lE
    cases ts with
    | nil => simp [walk, shiftRun]
    | cons t ts =>
      cases gs with
      | nil =>
        simp only [walk]
        by_cases hcond : cfg.minWords ≤ (t :: ts).length ∧ depth < cfg.maxDepth ∧
            lE + 1/10 < probedGapEnd env audio lE
        · rw [if_pos hcond, if_pos hcond, seqOut_shift,
            attemptRecursion_shift o₁ o₂ hR]
          simp [shiftRun, shiftEvent]
        · rw [if_neg hcond, if_neg hcond]
          simp [shiftRun, shiftEvent, List.map_map, Function.comp]
      | cons g gs =>
        simp only [walk]
        by_cases hn : normalize_word g.word = normalize_word t.text
        · rw [if_pos hn, if_pos hn]
          by_cases hs : g.case = "success"
          · rw [if_pos hs, if_pos hs, seqOut_shift, ih]
            congr 1
            simp [shiftRun, shiftRecord_successRec, add_comm]
          · rw [if_neg hs, if_neg hs]
            rcases hq : nextSuccessStart? (streakSplit (t :: ts) (g :: gs)).2.1
                (streakSplit (t :: ts) (g :: gs)).2.2 with _ | s <;>
              simp only [hq] <;>
              rw [seqOut_shift, obind2_shift, midStreakCore_shift o₁ o₂ hR, ih] <;>
              simp [shiftRun, shiftEvent]
        · rw [if_neg hn, if_neg hn, seqOut_shift, ih]
          simp [shiftRun]

theorem recursive_gentle_align_shift {env : Env} {cfg : Config} (o₁ : ℚ) :
    ∀ fuel audio tokens o₂ depth,
      recursive_gentle_align env cfg fuel audio tokens (o₁ + o₂) depth
        = Option.map (shiftRun o₁)
            (recursive_gentle_align env cfg fuel audio tokens o₂ depth) := by
  intro fuel
  induction fuel with
  | zero =>
    intro audio tokens o₂ depth
    simp [recursive_gentle_align]
  | succ f ih =>
    intro audio tokens o₂ depth
    simp only [recursive_gentle_align]
    by_cases he : tokens.isEmpty
    · rw [if_pos he, if_pos he]
      simp [shiftRun, shiftEvent, add_comm]
    · rw [if_neg he, if_neg he]
      by_cases hd : cfg.maxDepth < depth
      · rw [if_pos hd, if_pos hd]
        simp [shiftRun, shiftEvent, List.map_map, Function.comp, add_comm]
      · rw [if_neg hd, if_neg hd]
        by_cases ht : env.tempOk audio = false
        · rw [if_pos ht, if_pos ht]
          simp [shiftRun, shiftEvent, List.map_map, Function.comp, add_comm]
        · rw [if_neg ht, if_neg ht]
          by_cases hg : (env.align audio (tokens.map (·.text))).isEmpty
          · rw [if_pos hg, if_pos hg]
            simp [shiftRun, shiftEvent, List.map_map, Function.comp, add_comm]
          · rw [if_neg hg, if_neg hg, seqOut_shift,
              walk_shift o₁ o₂ (fun a ts off => ih a ts off (depth + 1))]
            simp [shiftRun, shiftEvent, add_comm]

/-! ### The stuck comparison point -/

/-- On the token `"Hello,"` against the unaligned Gentle word `"hello"`, the
outer comparison (via `normalize_word`) matches, but the inner streak loop
(via `.lower()` only) does not, so the streak is empty and neither cursor
advances: the walk makes no progress for any amount of fuel. -/
theorem walk_stuck (recurse : Audio → List WordToken → ℚ → Option RunOut) :
    ∀ fuel lE, walk envStuck defaultCfg [] 0 0 recurse fuel
      [⟨"Hello,", 0⟩] [⟨"hello", 0, 1, "not-found-in-audio"⟩] lE = none := by
  intro fuel
  induction fuel with
  | zero =>
    intro lE
    rfl
  | succ f ih =>
    intro lE
    have h1 : streakSplit [⟨"Hello,", 0⟩] [⟨"hello", 0, 1, "not-found-in-audio"⟩]
        = ([], [⟨"Hello,", 0⟩], [⟨"hello", 0, 1, "not-found-in-audio"⟩]) := by
      with_unfolding_all decide
    have h2 : nextSuccessStart? [⟨"Hello,", 0⟩] [⟨"hello", 0, 1, "not-found-in-audio"⟩]
        = none := by
      with_unfolding_all decide
    have h3 : normalize_word "hello" = normalize_word "Hello," := by
      with_unfolding_all decide
    have h6 : midStreakCore envStuck defaultCfg [] 0 recurse [] lE 30 = some ⟨[], []⟩ := by
      unfold midStreakCore
      rw [if_neg]
      · rfl
      · rintro ⟨hcl, _⟩
        exact absurd hcl (by decide)
    have h5 : probedGapEnd envStuck [] lE = 30 := rfl
    simp [walk, h3, h1, h2, h5, h6, ih lE, seqOut, obind2]

/-! ### Claim theorems -/

/-- Claim C1: whenever the top-level call `process_song_recursively` returns a
list, that list's `original_global_index` values are exactly `0, …, N-1` in
ascending order (hence each occurs exactly once), and its length is `N`, the
number of transcript words. -/
theorem process_output_complete_and_sorted (env : Env) (cfg : Config) (fuel : Nat)
    (transcript : String) (rs : List AlignmentRecord)
    (h : process_song_recursively env cfg fuel transcript = some rs) :
    rs.map (fun r => r.original_global_index) = List.range (tokenizeWords transcript).length
    ∧ rs.length = (tokenizeWords transcript).length := by
  simp only [process_song_recursively] at h
  by_cases he : (tokenizeWords transcript).isEmpty
  · rw [if_pos he] at h
    simp only [Option.some.injEq] at h
    subst h
    rw [List.isEmpty_iff] at he
    rw [he]
    simp
  · rw [if_neg he] at h
    rcases hr : recursive_gentle_align env cfg fuel []
        ((tokenizeWords transcript).enum.map fun p => WordToken.mk p.2 p.1) 0 0 with _ | out
    · rw [hr] at h
      simp at h
    · rw [hr] at h
      simp only [Option.some.injEq] at h
      subst h
      have hseg := recursive_gentle_align_segOK fuel []
        ((tokenizeWords transcript).enum.map fun p => WordToken.mk p.2 p.1) 0 0 out hr
      have htok : (((tokenizeWords transcript).enum.map fun p => WordToken.mk p.2 p.1).map
          fun r => r.original_global_index) = List.range (tokenizeWords transcript).length := by
        rw [List.map_map]
        have hc : ((fun r : WordToken => r.original_global_index)
            ∘ fun p : Nat × String => WordToken.mk p.2 p.1) = Prod.fst := rfl
        rw [hc, List.enum_map_fst]
      have hperm : List.Perm ((out.records.mergeSort fun a b =>
          decide (a.original_global_index ≤ b.original_global_index)).map
            fun r => r.original_global_index)
          (List.range (tokenizeWords transcript).length) := by
        refine List.Perm.trans (List.Perm.map _ (List.mergeSort_perm out.records _)) ?_
        rw [← htok]
        exact hseg.1.1
      have hsorted : ((out.records.mergeSort fun a b =>
          decide (a.original_global_index ≤ b.original_global_index)).map
            fun r => r.original_global_index).Pairwise (· ≤ ·) := by
        refine List.Pairwise.map _ ?_ (List.sorted_mergeSort ?_ ?_ out.records)
        · intro a b hab
          exact of_decide_eq_true hab
        · intro a b c hab hbc
          exact decide_eq_true (Nat.le_trans (of_decide_eq_true hab) (of_decide_eq_true hbc))
        · intro a b
          rcases Nat.le_total a.original_global_index b.original_global_index with hh | hh
          · rw [decide_eq_true hh]
            simp
          · rw [decide_eq_true hh]
            simp
      have heq := List.eq_of_perm_of_sorted hperm hsorted (List.pairwise_le_range _)
      refine ⟨heq, ?_⟩
      have hlen := congrArg List.length heq
      simpa using hlen

/-- Witness for C1 on the three-word transcript `"a b c"` with an all-success
aligner. -/
theorem process_output_complete_and_sorted_witness :
    outAllSuccess.records.map (fun r => r.original_global_index)
        = List.range (tokenizeWords "a b c").length
    ∧ outAllSuccess.records.length = (tokenizeWords "a b c").length := by
  refine process_output_complete_and_sorted envAllSuccess defaultCfg 5 "a b c"
    outAllSuccess.records ?_
  have htoks : ((tokenizeWords "a b c").enum.map fun p => WordToken.mk p.2 p.1) = toksABC := by
    decide
  have hrga : recursive_gentle_align envAllSuccess defaultCfg 5 [] toksABC 0 0
      = some outAllSuccess := by
    with_unfolding_all decide
  have hemp : (tokenizeWords "a b c").isEmpty = false := by decide
  have hpw : List.Pairwise (fun a b : AlignmentRecord =>
      decide (a.original_global_index ≤ b.original_global_index) = true)
      outAllSuccess.records := by
    decide
  simp only [process_song_recursively, htoks, hemp, Bool.false_eq_true, if_false, hrga]
  rw [List.mergeSort_of_sorted hpw]

/-- Claim C2, code bug: on the transcript token `"Hello,"` with the aligner
returning word `"hello"` in a non-success case, the claim says the walk
terminates and classifies the token; the code instead loops forever (the outer
comparison uses `normalize_word`, the inner streak loop uses `.lower()` only,
so the streak is empty and no cursor advances): modelled with fuel, the run
returns `none` for every fuel value. -/
theorem punctuation_match_walk_diverges :
    ∀ fuel, recursive_gentle_align envStuck defaultCfg fuel [] [⟨"Hello,", 0⟩] 0 0 = none := by
  intro fuel
  cases fuel with
  | zero => rfl
  | succ f =>
    have hstep : recursive_gentle_align envStuck defaultCfg (f + 1) [] [⟨"Hello,", 0⟩] 0 0
        = seqOut ⟨[], [Event.recursionEnter [] 0 0, Event.tempCreate [],
            Event.alignerCall [] ["Hello,"]]⟩
          (walk envStuck defaultCfg [] 0 0
            (fun a ts off => recursive_gentle_align envStuck defaultCfg f a ts off 1)
            (f + 1) [⟨"Hello,", 0⟩] [⟨"hello", 0, 1, "not-found-in-audio"⟩] 0) := rfl
    rw [hstep, walk_stuck]
    rfl

/-- Claim C3, counterexample: at depth `3 = MAX_RECURSION_DEPTH` (so condition
`depth < MAX_RECURSION_DEPTH` fails) a mid-segment streak still triggers
sub-clip extraction and a recursive call (entered at depth 4): the claim's
"no extraction or recursion occurs" is false for mid-segment streaks. -/
theorem depth_unchecked_for_midstream_streaks :
    recursive_gentle_align envDepth3 defaultCfg 10 [] toksDepth3 0 3 = some outDepth3
    ∧ Event.extractionCall [] 2 30 [1, 2] ∈ outDepth3.events
    ∧ Event.recursionEnter [(2, 30)] 2 4 ∈ outDepth3.events
    ∧ ¬ 3 < defaultCfg.maxDepth := by
  with_unfolding_all decide

/-- Claim C3, amended: every extraction performed during a run is for a streak
of length ≥ `MIN_WORDS_FOR_RECURSION` with a window exceeding
`MIN_GAP_DURATION`; the depth condition, by contrast, is enforced for
mid-segment streaks only at entry of the recursive callee, not before
extraction. -/
theorem extraction_only_for_qualifying_streaks (env : Env) (cfg : Config) (fuel : Nat)
    (audio : Audio) (tokens : List WordToken) (offset : ℚ) (depth : Nat) (out : RunOut)
    (h : recursive_gentle_align env cfg fuel audio tokens offset depth = some out) :
    ∀ a s e idxs, Event.extractionCall a s e idxs ∈ out.events →
      cfg.minWords ≤ idxs.length ∧ s + 1/10 < e :=
  (recursive_gentle_align_segOK fuel audio tokens offset depth out h).2

/-- Witness for the amended C3 on a concrete depth-0 run with one extraction. -/
theorem extraction_only_for_qualifying_streaks_witness :
    defaultCfg.minWords ≤ ([1, 2] : List Nat).length ∧ (2 : ℚ) + 1/10 < 30 :=
  extraction_only_for_qualifying_streaks envDepth3 defaultCfg 10 [] toksDepth3 0 0 outDepth0
    (by with_unfolding_all decide) [] 2 30 [1, 2] (by with_unfolding_all decide)

/-- Claim C4: offsets compose additively: running a segment with offset `o` is
exactly the offset-0 run with `o` added to every success timestamp (and to the
offsets recorded at recursion entries) — offsets are accumulated, never
renormalized; and in the concrete two-level scenario (ancestor offsets `10.0`
and `3.5`, local start `1.2`) the recovered word's absolute start is `14.7`. -/
theorem offset_composition_additive :
    (∀ (env : Env) (cfg : Config) (fuel : Nat) (audio : Audio)
        (tokens : List WordToken) (o : ℚ) (depth : Nat),
      recursive_gentle_align env cfg fuel audio tokens o depth
        = Option.map (shiftRun o) (recursive_gentle_align env cfg fuel audio tokens 0 depth))
    ∧ Option.map RunOut.records (recursive_gentle_align envNested defaultCfg 10 [] toksNested 0 0)
      = some [⟨"w0", 0, some 9, some 10, "success"⟩, ⟨"x", 1, some 13, some (27/2), "success"⟩,
          ⟨"y", 2, some (147/10), some 15, "success"⟩, ⟨"z", 3, some (31/2), some 16, "success"⟩] := by
  constructor
  · intro env cfg fuel audio tokens o depth
    have h := @recursive_gentle_align_shift env cfg o fuel audio tokens 0 depth
    rw [add_zero] at h
    exact h
  · with_unfolding_all decide

/-- Claim C5: at a comparison point, the expected token and the aligner word are
paired exactly when they agree under `normalize_word` (lowercase + strip
trailing `,`/`.`, so `"Hello,"` matches `"hello"` and `"cat"` does not match
`"dog"`); on a mismatch exactly one `error_transcript_gentle_desync` record is
emitted for the expected token and both cursors advance by exactly one; on a
match with a success case, one success record is emitted and both cursors
advance by exactly one. -/
theorem pairing_iff_normalize_match (env : Env) (cfg : Config) (audio : Audio)
    (offset : ℚ) (depth : Nat) (recurse : Audio → List WordToken → ℚ → Option RunOut)
    (fuel : Nat) (t : WordToken) (ts : List WordToken) (g : GentleWord)
    (gs : List GentleWord) (lE : ℚ) :
    normalize_word "Hello," = normalize_word "hello"
    ∧ normalize_word "cat" ≠ normalize_word "dog"
    ∧ (normalize_word g.word ≠ normalize_word t.text →
        walk env cfg audio offset depth recurse (fuel + 1) (t :: ts) (g :: gs) lE
          = seqOut ⟨[failRec "error_transcript_gentle_desync" t], []⟩
              (walk env cfg audio offset depth recurse fuel ts gs lE))
    ∧ (normalize_word g.word = normalize_word t.text → g.case = "success" →
        walk env cfg audio offset depth recurse (fuel + 1) (t :: ts) (g :: gs) lE
          = seqOut ⟨[successRec offset t g], []⟩
              (walk env cfg audio offset depth recurse fuel ts gs g.stop)) := by
  refine ⟨by with_unfolding_all decide, by with_unfolding_all decide, ?_, ?_⟩
  · intro hn
    simp only [walk]
    rw [if_neg hn]
  · intro hn hs
    simp only [walk]
    rw [if_pos hn, if_pos hs]

/-- Witness for C5 at the concrete mismatch `"cat"` vs `"dog"`. -/
theorem pairing_iff_normalize_match_witness :
    walk envAllSuccess defaultCfg [] 0 0 noRecurse 1 [⟨"cat", 0⟩] [⟨"dog", 1, 2, "success"⟩] 0
      = seqOut ⟨[failRec "error_transcript_gentle_desync" ⟨"cat", 0⟩], []⟩
          (walk envAllSuccess defaultCfg [] 0 0 noRecurse 0 [] [] 0) :=
  (pairing_iff_normalize_match envAllSuccess defaultCfg [] 0 0 noRecurse 0
    ⟨"cat", 0⟩ [] ⟨"dog", 1, 2, "success"⟩ [] 0).2.2.1 (by with_unfolding_all decide)

/-- Claim C6, counterexample: a success record for the token `"b."` (local
start `5`) is emitted immediately after the one-token streak, yet the streak's
recorded gap end is the probed duration `1/20`, not `5` — the next-success rule
does not apply because the following pair matches only after punctuation
stripping. (Observable: its failure reason is `failed_invalid_gap_time`.) -/
theorem gap_end_not_next_success_counterexample :
    recursive_gentle_align envGapSmall defaultCfg 5 [] toksGapPunct 0 0 = some outGapSmall
    ∧ Event.streakWindow [0] 0 (1/20) ∈ outGapSmall.events
    ∧ (⟨"b.", 1, some 5, some 6, "success"⟩ : AlignmentRecord) ∈ outGapSmall.records
    ∧ failRec "failed_invalid_gap_time" ⟨"a", 0⟩ ∈ outGapSmall.records
    ∧ (1/20 : ℚ) ≠ 5 := by
  with_unfolding_all decide

/-- Claim C6, amended: the gap window in the code is `gap_start` = last success
local end (`0.0` initially) and `gap_end` = the next Gentle entry's start ONLY
when it equals the next transcript token after plain `.lower()` with a success
case; otherwise the probed duration; otherwise `gap_start + 10.0` — shown on
concrete runs for all three regimes plus a non-zero `gap_start`. -/
theorem gap_window_rule_amended :
    (recursive_gentle_align envGapDur8 defaultCfg 5 [] toksGapPunct 0 0 = some outGapDur8
      ∧ Event.streakWindow [0] 0 8 ∈ outGapDur8.events
      ∧ Event.durationProbe [] ∈ outGapDur8.events)
    ∧ (recursive_gentle_align envGapDur8 defaultCfg 5 [] toksGapExact 0 0 = some outGapExact
      ∧ Event.streakWindow [0] 0 5 ∈ outGapExact.events
      ∧ Event.durationProbe [] ∉ outGapExact.events)
    ∧ (recursive_gentle_align envGapNoProbe defaultCfg 5 [] toksGapPunct 0 0 = some outGapNoProbe
      ∧ Event.streakWindow [0] 0 10 ∈ outGapNoProbe.events)
    ∧ (recursive_gentle_align envTrailing defaultCfg 5 [] toksTrailing 0 0 = some outTrailing
      ∧ Event.streakWindow [1] 2 30 ∈ outTrailing.events) := by
  refine ⟨by with_unfolding_all decide, by with_unfolding_all decide,
    by with_unfolding_all decide, by with_unfolding_all decide⟩

/-- Claim C7, counterexample: the code emits `failed_trailing_streak_no_recursion`
(and can emit `failed_gentle_core_call_no_output`,
`failed_ffmpeg_extraction_trailing`), none of which are in the specification's
StatusKind enumeration; moreover the trailing-streak case does not distinguish
why recursion did not happen. -/
theorem case_outside_spec_enumeration :
    recursive_gentle_align envTrailing defaultCfg 5 [] toksTrailing 0 0 = some outTrailing
    ∧ failRec "failed_trailing_streak_no_recursion" ⟨"b", 1⟩ ∈ outTrailing.records
    ∧ "failed_trailing_streak_no_recursion" ∉ specStatusKinds
    ∧ "failed_gentle_core_call_no_output" ∉ specStatusKinds
    ∧ "failed_ffmpeg_extraction_trailing" ∈ codeCases
    ∧ "failed_ffmpeg_extraction_trailing" ∉ specStatusKinds := by
  with_unfolding_all decide

/-- Claim C7, amended: every record emitted by any terminating run carries a
case from the code's closed ten-element case set `codeCases`. -/
theorem cases_within_code_enumeration (env : Env) (cfg : Config) (fuel : Nat)
    (audio : Audio) (tokens : List WordToken) (offset : ℚ) (depth : Nat) (out : RunOut)
    (h : recursive_gentle_align env cfg fuel audio tokens offset depth = some out) :
    ∀ r ∈ out.records, r.case ∈ codeCases :=
  (recursive_gentle_align_segOK fuel audio tokens offset depth out h).1.2.1

/-- Witness for the amended C7 on the concrete trailing-streak run. -/
theorem cases_within_code_enumeration_witness :
    (failRec "failed_trailing_streak_no_recursion" ⟨"b", 1⟩).case ∈ codeCases :=
  cases_within_code_enumeration envTrailing defaultCfg 5 [] toksTrailing 0 0 outTrailing
    (by with_unfolding_all decide) _ (by with_unfolding_all decide)

/-- Claim C8: a slice entered with `depth > MAX_RECURSION_DEPTH` performs no
aligner call and no temp-transcript creation (its whole event trace is the
entry event) and every token is emitted as `failed_max_depth` with null
timestamps. -/
theorem depth_exceeded_short_circuit (env : Env) (cfg : Config) (fuel : Nat)
    (audio : Audio) (tokens : List WordToken) (offset : ℚ) (depth : Nat)
    (h : cfg.maxDepth < depth) :
    recursive_gentle_align env cfg (fuel + 1) audio tokens offset depth
      = some ⟨tokens.map (failRec "failed_max_depth"),
          [Event.recursionEnter audio offset depth]⟩
    ∧ (∀ a ws, Event.alignerCall a ws ∉ [Event.recursionEnter audio offset depth])
    ∧ (∀ a, Event.tempCreate a ∉ [Event.recursionEnter audio offset depth])
    ∧ ∀ r ∈ tokens.map (failRec "failed_max_depth"),
        r.case = "failed_max_depth" ∧ r.start = none ∧ r.stop = none := by
  refine ⟨?_, ?_, ?_, ?_⟩
  · simp only [recursive_gentle_align]
    by_cases he : tokens.isEmpty
    · rw [if_pos he]
      rw [List.isEmpty_iff] at he
      subst he
      rfl
    · rw [if_neg he, if_pos h]
  · intro a ws hm
    simp at hm
  · intro a hm
    simp at hm
  · intro r hr
    obtain ⟨t, _, rfl⟩ := List.mem_map.1 hr
    exact ⟨rfl, rfl, rfl⟩

/-- Witness for C8: `MAX_RECURSION_DEPTH = 1`, entered at depth 2. -/
theorem depth_exceeded_short_circuit_witness :
    recursive_gentle_align envAllSuccess ⟨2, 1⟩ 1 [] toksABC 5 2
      = some ⟨toksABC.map (failRec "failed_max_depth"), [Event.recursionEnter [] 5 2]⟩ :=
  (depth_exceeded_short_circuit envAllSuccess ⟨2, 1⟩ 0 [] toksABC 5 2 (by decide)).1

/-- Claim C9: every record whose case is not `"success"` has null start and end
timestamps. -/
theorem non_success_records_null_timestamps (env : Env) (cfg : Config) (fuel : Nat)
    (audio : Audio) (tokens : List WordToken) (offset : ℚ) (depth : Nat) (out : RunOut)
    (h : recursive_gentle_align env cfg fuel audio tokens offset depth = some out) :
    ∀ r ∈ out.records, r.case ≠ "success" → r.start = none ∧ r.stop = none :=
  (recursive_gentle_align_segOK fuel audio tokens offset depth out h).1.2.2.1

/-- Witness for C9 on the concrete trailing-streak failure record. -/
theorem non_success_records_null_timestamps_witness :
    (failRec "failed_trailing_streak_no_recursion" ⟨"b", 1⟩).start = none
    ∧ (failRec "failed_trailing_streak_no_recursion" ⟨"b", 1⟩).stop = none :=
  non_success_records_null_timestamps envTrailing defaultCfg 5 [] toksTrailing 0 0 outTrailing
    (by with_unfolding_all decide) _ (by with_unfolding_all decide) (by decide)

/-- Claim C10: every emitted record's `word` is the original transcript token's
text for the record's index (never the aligner's returned string). -/
theorem record_word_is_transcript_text (env : Env) (cfg : Config) (fuel : Nat)
    (audio : Audio) (tokens : List WordToken) (offset : ℚ) (depth : Nat) (out : RunOut)
    (h : recursive_gentle_align env cfg fuel audio tokens offset depth = some out) :
    ∀ r ∈ out.records, ∃ t ∈ tokens,
      t.original_global_index = r.original_global_index ∧ t.text = r.word :=
  (recursive_gentle_align_segOK fuel audio tokens offset depth out h).1.2.2.2

/-- Witness for C10: the success record for `"b."` carries the transcript's
text `"b."`, not the aligner's `"b"`. -/
theorem record_word_is_transcript_text_witness :
    ∃ t ∈ toksGapPunct, t.original_global_index = 1 ∧ t.text = "b." :=
  record_word_is_transcript_text envGapDur8 defaultCfg 5 [] toksGapPunct 0 0 outGapDur8
    (by with_unfolding_all decide) ⟨"b.", 1, some 5, some 6, "success"⟩
    (by with_unfolding_all decide)

end RecursiveGentle
